import Mathlib

/-!
# Verification of the job-recommendation core

Shallow embedding of the scoring/normalization core of the
`Ai-recommender-agent` backend:

* `normalize_skill` — `backend/app/agents/recommender_agent.py`
* the scoring node and recommendation filtering — same file
* `cosine_similarity` — `backend/app/utils/embeddings.py`
* `extract_salary` — `backend/app/agents/scrapers/job_normalizer.py`
* the skill-gap analysis — `backend/app/agents/skill_gap_agent.py`
* job ingestion / dedup — `backend/app/api/admin.py`

Python strings are modelled as `String` (operating on `List Char`),
Python floats as exact rationals `ℚ` (all constants appearing in the
scoring code are exactly representable decisions on thresholds), and the
real-valued cosine similarity as a function into `ℝ`.
-/

set_option allowUnsafeReducibility true
attribute [local semireducible] Rat.mul Rat.inv Rat.div Rat.add Rat.sub Rat.neg

namespace JobRec

/-! ## Python string primitives used by `normalize_skill`

`str.lower` is modelled by `Char.toLower` (ASCII case mapping, which is
what the skill strings use), `str.strip` by dropping whitespace at both
ends, and `str.replace` with single-character patterns by a map
(replacement by a character) or a filter (replacement by the empty
string). -/

/-- `str.strip()`: drop whitespace from both ends. -/
def pyStrip (cs : List Char) : List Char :=
  ((cs.dropWhile Char.isWhitespace).reverse.dropWhile Char.isWhitespace).reverse

/-- `str.replace(a, b)` for one-character `a` and `b`. -/
def replaceChar (a b : Char) (cs : List Char) : List Char :=
  cs.map fun c => if c == a then b else c

/-- `str.replace(a, "")` for a one-character `a`. -/
def removeChar (a : Char) (cs : List Char) : List Char :=
  cs.filter fun c => c != a

/-- `str.strip()` at the `String` level. -/
def pyStripStr (s : String) : String :=
  String.mk (pyStrip s.data)

/-- The `variations` alias dictionary of `normalize_skill`
(`recommender_agent.py`), in source order.  All keys are distinct, so
first-match lookup agrees with the Python dict. -/
def variations : List (String × String) :=
  [("node.js", "nodejs"), ("node js", "nodejs"), ("nodejs", "nodejs"),
   ("machine learning", "ml"), ("artificial intelligence", "ai"), ("ai", "ai"),
   ("data science", "datascience"), ("datascience", "datascience"),
   ("javascript", "js"), ("js", "js"), ("typescript", "ts"), ("ts", "ts"),
   ("c++", "cpp"), ("cplusplus", "cpp"), ("cpp", "cpp"),
   ("expressjs", "express"), ("express.js", "express"), ("express", "express"),
   ("fastapi", "fastapi"), ("fast api", "fastapi"),
   ("scikit-learn", "scikitlearn"), ("scikitlearn", "scikitlearn"),
   ("scikit learn", "scikitlearn"),
   ("llm models", "llm"), ("llm", "llm"),
   ("deep learning", "deeplearning"), ("deeplearning", "deeplearning"),
   ("prompt engineering", "promptengineering"),
   ("promptengineering", "promptengineering")]

/-- The cleanup performed by `normalize_skill` before the alias lookup:
`skill.lower().strip().replace("-", " ").replace("_", " ").replace(".", "")`. -/
def cleanChars (cs : List Char) : List Char :=
  removeChar '.' (replaceChar '_' ' ' (replaceChar '-' ' '
    (pyStrip (cs.map Char.toLower))))

/-- `normalize_skill` from `recommender_agent.py`.  A falsy input (`None`
or the empty string, both modelled by `""`) yields `""`. -/
def normalize_skill (s : String) : String :=
  if s = "" then ""
  else
    let normalized := String.mk (cleanChars s.data)
    ((variations.lookup normalized).getD normalized)

/-- The cleanup as the spec sentence of claim C7 words it: `-`, `_` and
`.` are all replaced *by a space* (the source instead removes `.`). -/
def cleanCharsSpecC7 (cs : List Char) : List Char :=
  replaceChar '.' ' ' (replaceChar '_' ' ' (replaceChar '-' ' '
    (pyStrip (cs.map Char.toLower))))

/-- `normalize_skill` as described by claim C7 (dots become spaces). -/
def normalizeSkillSpecC7 (s : String) : String :=
  if s = "" then ""
  else
    let normalized := String.mk (cleanCharsSpecC7 s.data)
    ((variations.lookup normalized).getD normalized)

/-- The cleanup described by the amended claim C7, written as a single
character-by-character pass: lowercase and strip, then send `-` and `_`
to a space and drop `.`. -/
def cleanupDescribed (cs : List Char) : List Char :=
  (pyStrip (cs.map Char.toLower)).flatMap fun c =>
    if c = '-' ∨ c = '_' then [' '] else if c = '.' then [] else [c]

/-- `normalize_skill` as the amended claim C7 describes it. -/
def normalizeSkillDescribed (s : String) : String :=
  if s = "" then ""
  else
    let t := String.mk (cleanupDescribed s.data)
    ((variations.lookup t).getD t)

theorem cleanChars_eq_described (cs : List Char) :
    cleanChars cs = cleanupDescribed cs := by
  unfold cleanChars cleanupDescribed
  generalize pyStrip (cs.map Char.toLower) = l
  induction l with
  | nil => rfl
  | cons c l ih =>
    by_cases h1 : c = '-' <;> by_cases h2 : c = '_' <;> by_cases h3 : c = '.' <;>
      simp_all [replaceChar, removeChar, List.map_map, Function.comp]

/-! ## Idempotence analysis of `normalize_skill` (claim C8) -/

theorem toNat_ofNat_valid {n : Nat} (h : Nat.isValidChar n) :
    (Char.ofNat n).toNat = n := by
  unfold Char.ofNat
  rw [dif_pos h]
  simp [Char.ofNatAux, Char.toNat, UInt32.toNat]

theorem toLower_toLower (c : Char) :
    Char.toLower (Char.toLower c) = Char.toLower c := by
  unfold Char.toLower
  by_cases h : c.toNat ≥ 65 ∧ c.toNat ≤ 90
  · rw [if_pos h]
    have hv : Nat.isValidChar (c.toNat + 32) := Or.inl (by omega)
    have ht : (Char.ofNat (c.toNat + 32)).toNat = c.toNat + 32 :=
      toNat_ofNat_valid hv
    rw [if_neg]
    rw [ht]
    omega
  · rw [if_neg h, if_neg h]

/-- Characters that the `normalize_skill` cleanup can ever output:
fixed by `toLower` and none of the replaced characters. -/
def cleanFixedChar (c : Char) : Prop :=
  Char.toLower c = c ∧ c ≠ '-' ∧ c ≠ '_' ∧ c ≠ '.'

theorem mem_pyStrip {c : Char} {cs : List Char} (h : c ∈ pyStrip cs) : c ∈ cs := by
  unfold pyStrip at h
  simp only [List.mem_reverse] at h
  exact (List.dropWhile_sublist _).mem ((List.mem_reverse).mp ((List.dropWhile_sublist _).mem h))

theorem mem_replaceChar {a b c : Char} {cs : List Char}
    (h : c ∈ replaceChar a b cs) : c = b ∨ (c ∈ cs ∧ c ≠ a) := by
  unfold replaceChar at h
  rcases List.mem_map.mp h with ⟨d, hd, hdc⟩
  by_cases hda : d = a
  · subst hda; simp at hdc; exact Or.inl hdc.symm
  · right
    have : d = c := by simpa [hda] using hdc
    subst this; exact ⟨hd, hda⟩

theorem cleanChars_chars {c : Char} {cs : List Char}
    (h : c ∈ cleanChars cs) : cleanFixedChar c := by
  unfold cleanChars removeChar at h
  have hne : c ≠ '.' := by
    have := List.of_mem_filter h
    simpa using this
  have h2 : c ∈ replaceChar '_' ' ' (replaceChar '-' ' ' (pyStrip (cs.map Char.toLower))) :=
    List.mem_of_mem_filter h
  rcases mem_replaceChar h2 with hsp | ⟨h3, hu⟩
  · subst hsp
    refine ⟨by decide, by decide, by decide, by decide⟩
  rcases mem_replaceChar h3 with hsp | ⟨h4, hm⟩
  · subst hsp
    refine ⟨by decide, by decide, by decide, by decide⟩
  have h5 : c ∈ cs.map Char.toLower := mem_pyStrip h4
  rcases List.mem_map.mp h5 with ⟨d, _, hdc⟩
  refine ⟨?_, hm, hu, hne⟩
  rw [← hdc]
  exact toLower_toLower d

theorem map_id_of_fixed {f : Char → Char} {cs : List Char}
    (h : ∀ c ∈ cs, f c = c) : cs.map f = cs := by
  induction cs with
  | nil => rfl
  | cons c l ih =>
    simp only [List.map_cons]
    rw [h c (List.mem_cons_self c l), ih fun d hd => h d (List.mem_cons_of_mem c hd)]

theorem cleanChars_fixed {cs : List Char}
    (hall : ∀ c ∈ cs, cleanFixedChar c) (hstrip : pyStrip cs = cs) :
    cleanChars cs = cs := by
  unfold cleanChars
  have h1 : cs.map Char.toLower = cs := map_id_of_fixed fun c hc => (hall c hc).1
  rw [h1, hstrip]
  have h2 : replaceChar '-' ' ' cs = cs :=
    map_id_of_fixed fun c hc => by
      have := (hall c hc).2.1
      simp [this]
  rw [h2]
  have h3 : replaceChar '_' ' ' cs = cs :=
    map_id_of_fixed fun c hc => by
      have := (hall c hc).2.2.1
      simp [this]
  rw [h3]
  unfold removeChar
  rw [List.filter_eq_self.mpr]
  intro c hc
  have := (hall c hc).2.2.2
  simpa using this

theorem lookup_mem {n v : String} {l : List (String × String)}
    (h : l.lookup n = some v) : (n, v) ∈ l := by
  induction l with
  | nil => simp [List.lookup] at h
  | cons p l ih =>
    rw [List.lookup] at h
    cases hp : (n == p.1)
    · rw [hp] at h
      exact List.mem_cons_of_mem _ (ih h)
    · rw [hp] at h
      have h1 : n = p.1 := by simpa using hp
      have h2 : p.2 = v := Option.some.inj h
      have : (n, v) = p := by
        rw [h1, ← h2]
      rw [this]
      exact List.mem_cons_self p l

theorem normalize_variation_values :
    ∀ p ∈ variations, normalize_skill p.2 = p.2 := by decide

theorem normalize_skill_empty : normalize_skill "" = "" := by
  simp [normalize_skill]

theorem normalize_skill_idem_of_stripped (s : String)
    (h : pyStripStr (normalize_skill s) = normalize_skill s) :
    normalize_skill (normalize_skill s) = normalize_skill s := by
  by_cases hs : s = ""
  · subst hs; rw [normalize_skill_empty, normalize_skill_empty]
  · have hdef : normalize_skill s =
        (variations.lookup (String.mk (cleanChars s.data))).getD
          (String.mk (cleanChars s.data)) := by
      simp only [normalize_skill, if_neg hs]
    cases hl : variations.lookup (String.mk (cleanChars s.data)) with
    | some v =>
      have hv : normalize_skill s = v := by rw [hdef, hl]; rfl
      rw [hv]
      exact normalize_variation_values _ (lookup_mem hl)
    | none =>
      have hv : normalize_skill s = String.mk (cleanChars s.data) := by
        rw [hdef, hl]; rfl
      rw [hv]
      by_cases h0 : String.mk (cleanChars s.data) = ""
      · rw [h0, normalize_skill_empty]
      · have hstrip : pyStrip (cleanChars s.data) = cleanChars s.data := by
          rw [hv] at h
          unfold pyStripStr at h
          exact congrArg String.data h
        have hclean : cleanChars (cleanChars s.data) = cleanChars s.data :=
          cleanChars_fixed (fun c hc => cleanChars_chars hc) hstrip
        simp only [normalize_skill, if_neg h0]
        rw [hclean, hl]
        rfl

/-- C7 counterexample.  The claim says `.` is replaced *with a space*;
the code replaces it with the empty string.  On `"express.js"` the two
algorithms disagree: the code reaches the `"expressjs"` alias and
returns `"express"`, while the claimed algorithm produces the unmapped
string `"express js"`. -/
theorem normalize_skill_drops_dot :
    normalize_skill "express.js" = "express" ∧
      normalizeSkillSpecC7 "express.js" = "express js" ∧
      normalize_skill "express.js" ≠ normalizeSkillSpecC7 "express.js" :=
  ⟨by decide, by decide, by decide⟩

/-- C7 amended.  `normalize_skill` lowercases, strips, replaces `-` and
`_` with a space and *removes* `.`, then consults the alias table,
returning unmapped strings unchanged after the cleanup; the empty (or
`None`) input yields the empty string.  Alias examples: `"node.js"`
maps to `"nodejs"` and `"c++"` to `"cpp"`. -/
theorem normalize_skill_described :
    (∀ s : String, normalize_skill s = normalizeSkillDescribed s) ∧
      normalize_skill "node.js" = "nodejs" ∧ normalize_skill "c++" = "cpp" ∧
      normalize_skill "quantum juggling" = "quantum juggling" ∧
      normalize_skill "" = "" := by
  refine ⟨?_, by decide, by decide, by decide, by decide⟩
  intro s
  unfold normalize_skill normalizeSkillDescribed
  by_cases hs : s = ""
  · rw [if_pos hs, if_pos hs]
  · rw [if_neg hs, if_neg hs]
    show (variations.lookup (String.mk (cleanChars s.data))).getD
        (String.mk (cleanChars s.data)) =
      (variations.lookup (String.mk (cleanupDescribed s.data))).getD
        (String.mk (cleanupDescribed s.data))
    rw [cleanChars_eq_described]

/-- C8 counterexample.  `normalize_skill` is not idempotent: on `"-x"`
the first pass turns the leading dash into a leading space (the strip
happens *before* the dash replacement), and the second pass strips that
space away. -/
theorem normalize_skill_not_idempotent :
    normalize_skill "-x" = " x" ∧ normalize_skill (normalize_skill "-x") = "x" ∧
      normalize_skill (normalize_skill "-x") ≠ normalize_skill "-x" :=
  ⟨by decide, by decide, by decide⟩

theorem normalize_skill_idem_witness :
    pyStripStr (normalize_skill "Python") = normalize_skill "Python" ∧
      normalize_skill (normalize_skill "Python") = normalize_skill "Python" :=
  ⟨by decide, normalize_skill_idem_of_stripped "Python" (by decide)⟩

/-! ## Recommendation scoring (`recommender_agent.py`)

The candidate dicts built in `get_recommendations` are modelled by
`Job` (keeping the fields the scoring reads; the remaining fields —
company, location, salary, … — are carried through unchanged by the
code and are irrelevant to every claim).  Python floats are modelled as
exact rationals; the call to `embedding_generator.cosine_similarity`
inside `score_jobs_node` is abstracted by a parameter `simf`, so every
theorem below holds for an arbitrary similarity oracle. -/

structure Job where
  id : String
  title : String
  required_skills : List String
  description_embedding : Option (List ℚ)
deriving DecidableEq

structure ScoredJob where
  job : Job
  similarity_score : ℚ
  skill_match_count : ℕ
  skill_match_ratio : ℚ
  combined_score : ℚ
deriving DecidableEq

/-- `{normalize_skill(skill) for skill in skills if skill}` — a Python
set comprehension, modelled as a dedup'd list of the normalized values. -/
def normalizedSkillSet (skills : List String) : List String :=
  ((skills.filter fun s => s != "").map normalize_skill).dedup

/-- Python `max(a, b)` on two floats (ties keep the first argument,
which is the same value anyway). -/
def pyMax (a b : ℚ) : ℚ := if a < b then b else a

/-- Python `min(a, b)` on two floats. -/
def pyMin (a b : ℚ) : ℚ := if b < a then b else a

/-- `max(0.0, min(1.0, x))` from `score_jobs_node`. -/
def clamp01 (x : ℚ) : ℚ := pyMax 0 (pyMin 1 x)

/-- Loop body of `score_jobs_node`: similarity, skill intersection,
ratio and combined score for one candidate. -/
def scoreOne (simf : List ℚ → List ℚ → ℚ) (user_embedding : Option (List ℚ))
    (user_skills_normalized : List String) (job : Job) : ScoredJob :=
  let similarity_score : ℚ :=
    match job.description_embedding, user_embedding with
    | some je, some ue => clamp01 (simf ue je)
    | _, _ => 0
  let job_skills_normalized := normalizedSkillSet job.required_skills
  let skill_match_count :=
    (user_skills_normalized.filter fun s => job_skills_normalized.contains s).length
  let skill_match_ratio : ℚ :=
    if job_skills_normalized ≠ [] then
      (skill_match_count : ℚ) / (job_skills_normalized.length : ℚ)
    else 0
  let combined_score : ℚ :=
    if similarity_score = 0 ∧ 0 < skill_match_ratio then skill_match_ratio * (8/10)
    else similarity_score * (1/2) + skill_match_ratio * (1/2)
  ⟨job, similarity_score, skill_match_count, skill_match_ratio, combined_score⟩

/-- The inclusion gate of `score_jobs_node` as a proposition:
`skill_match_count > 0 or similarity_score > 0.3 or combined_score > 0.1`. -/
def includeJobP (sj : ScoredJob) : Prop :=
  0 < sj.skill_match_count ∨ (3 : ℚ)/10 < sj.similarity_score ∨
    (1 : ℚ)/10 < sj.combined_score

instance (sj : ScoredJob) : Decidable (includeJobP sj) := by
  unfold includeJobP
  infer_instance

/-- The inclusion gate of `score_jobs_node`. -/
def includeJob (sj : ScoredJob) : Bool := decide (includeJobP sj)

theorem includeJob_iff {sj : ScoredJob} : includeJob sj = true ↔ includeJobP sj :=
  decide_eq_true_iff

/-- Stable insertion step for a descending sort by `key`. -/
def insertByDesc (key : ScoredJob → ℚ) (x : ScoredJob) :
    List ScoredJob → List ScoredJob
  | [] => [x]
  | y :: ys => if key y ≤ key x then x :: y :: ys else y :: insertByDesc key x ys

/-- Python `list.sort(key=…, reverse=True)`: a stable descending sort
(the output of a stable sort is unique, so this structural insertion
sort agrees with CPython's timsort). -/
def sortByDesc (key : ScoredJob → ℚ) : List ScoredJob → List ScoredJob
  | [] => []
  | x :: xs => insertByDesc key x (sortByDesc key xs)

/-- `score_jobs_node` from `recommender_agent.py`: score every
candidate, keep those passing the inclusion gate, sort by
`combined_score` descending. -/
def score_jobs_node (simf : List ℚ → List ℚ → ℚ) (user_skills : List String)
    (user_embedding : Option (List ℚ)) (job_candidates : List Job) : List ScoredJob :=
  let user_skills_normalized := normalizedSkillSet user_skills
  sortByDesc (fun sj => sj.combined_score)
    ((job_candidates.map (scoreOne simf user_embedding user_skills_normalized)).filter
      includeJob)

/-- The caller-side secondary filter of `get_recommendations` as a
proposition:
`skill_match_count > 0 or similarity_score > 0.15 or combined_score > 0.01`. -/
def secondaryFilterP (sj : ScoredJob) : Prop :=
  0 < sj.skill_match_count ∨ (15 : ℚ)/100 < sj.similarity_score ∨
    (1 : ℚ)/100 < sj.combined_score

instance (sj : ScoredJob) : Decidable (secondaryFilterP sj) := by
  unfold secondaryFilterP
  infer_instance

/-- The caller-side secondary filter of `get_recommendations`. -/
def secondaryFilter (sj : ScoredJob) : Bool := decide (secondaryFilterP sj)

theorem secondaryFilter_iff {sj : ScoredJob} :
    secondaryFilter sj = true ↔ secondaryFilterP sj :=
  decide_eq_true_iff

/-- The pure tail of `get_recommendations`: run `score_jobs_node`,
apply the secondary filter, fall back to the top-`limit` by raw
similarity when the filter leaves nothing but scored jobs exist,
re-sort by combined score, truncate to `limit`.  (The surrounding
function additionally fetches the candidates from the database and
lazily regenerates the user embedding; both are inputs here.) -/
def get_recommendations_core (simf : List ℚ → List ℚ → ℚ) (user_skills : List String)
    (user_embedding : Option (List ℚ)) (job_candidates : List Job) (limit : ℕ) :
    List ScoredJob :=
  let scored_jobs := score_jobs_node simf user_skills user_embedding job_candidates
  let filtered_jobs := scored_jobs.filter secondaryFilter
  let filtered_jobs :=
    if filtered_jobs = [] ∧ scored_jobs ≠ [] then
      (sortByDesc (fun sj => sj.similarity_score) scored_jobs).take limit
    else filtered_jobs
  (sortByDesc (fun sj => sj.combined_score) filtered_jobs).take limit

theorem length_insertByDesc (key : ScoredJob → ℚ) (x : ScoredJob) (l : List ScoredJob) :
    (insertByDesc key x l).length = l.length + 1 := by
  induction l with
  | nil => rfl
  | cons y ys ih =>
    unfold insertByDesc
    by_cases h : key y ≤ key x
    · rw [if_pos h]; rfl
    · rw [if_neg h]
      simp [ih]

theorem mem_insertByDesc {key : ScoredJob → ℚ} {x a : ScoredJob} {l : List ScoredJob} :
    a ∈ insertByDesc key x l ↔ a = x ∨ a ∈ l := by
  induction l with
  | nil => simp [insertByDesc]
  | cons y ys ih =>
    unfold insertByDesc
    by_cases h : key y ≤ key x
    · rw [if_pos h]
      simp only [List.mem_cons]
    · rw [if_neg h]
      simp only [List.mem_cons, ih]
      tauto

theorem length_sortByDesc (key : ScoredJob → ℚ) (l : List ScoredJob) :
    (sortByDesc key l).length = l.length := by
  induction l with
  | nil => rfl
  | cons x xs ih =>
    unfold sortByDesc
    rw [length_insertByDesc, ih, List.length_cons]

theorem mem_sortByDesc {key : ScoredJob → ℚ} {a : ScoredJob} {l : List ScoredJob} :
    a ∈ sortByDesc key l ↔ a ∈ l := by
  induction l with
  | nil => simp [sortByDesc]
  | cons x xs ih =>
    unfold sortByDesc
    rw [mem_insertByDesc, ih]
    simp

/-- Every record in the output of `score_jobs_node` passed the inclusion
gate. -/
theorem includeJob_of_mem_score_jobs_node {simf : List ℚ → List ℚ → ℚ}
    {us : List String} {ue : Option (List ℚ)} {cands : List Job} {sj : ScoredJob}
    (h : sj ∈ score_jobs_node simf us ue cands) : includeJob sj = true := by
  unfold score_jobs_node at h
  exact (List.mem_filter.mp (mem_sortByDesc.mp h)).2

/-- The inclusion gate of `score_jobs_node` is strictly stronger than
the secondary filter of `get_recommendations` (`0.15 < 0.3`,
`0.01 < 0.1`). -/
theorem secondaryFilter_of_includeJob {sj : ScoredJob}
    (h : includeJob sj = true) : secondaryFilter sj = true := by
  rw [includeJob_iff] at h
  rw [secondaryFilter_iff]
  rcases h with h | h | h
  · exact Or.inl h
  · refine Or.inr (Or.inl (lt_trans ?_ h))
    norm_num
  · refine Or.inr (Or.inr (lt_trans ?_ h))
    norm_num

/-- The secondary filter keeps everything `score_jobs_node` produced. -/
theorem filter_secondary_score_jobs (simf : List ℚ → List ℚ → ℚ)
    (us : List String) (ue : Option (List ℚ)) (cands : List Job) :
    (score_jobs_node simf us ue cands).filter secondaryFilter =
      score_jobs_node simf us ue cands :=
  List.filter_eq_self.mpr fun _ h =>
    secondaryFilter_of_includeJob (includeJob_of_mem_score_jobs_node h)

/-- C1.  A user with skills `["Python","AWS"]` and no stored embedding,
scoring the single candidate requiring `["python","docker"]` with no
description embedding, gets exactly one scored record with
`skill_match_count = 1`, `skill_match_ratio = 1/2`,
`similarity_score = 0` and `combined_score = 2/5 = 0.8 * 0.5` (the
skill-only-boost branch), for every similarity oracle `simf` (which is
never consulted). -/
theorem scenario_python_aws_docker (simf : List ℚ → List ℚ → ℚ) :
    score_jobs_node simf ["Python", "AWS"] none
        [⟨"job-1", "Backend Engineer", ["python", "docker"], none⟩] =
      [⟨⟨"job-1", "Backend Engineer", ["python", "docker"], none⟩, 0, 1, 1/2, 2/5⟩] :=
  rfl

/-- C3.  A candidate's scored record is in the output of
`score_jobs_node` exactly when it passes the inclusion gate:
`skill_match_count > 0` or `similarity_score > 0.3` or
`combined_score > 0.1`. -/
theorem score_jobs_node_inclusion_iff (simf : List ℚ → List ℚ → ℚ)
    (us : List String) (ue : Option (List ℚ)) (cands : List Job) (job : Job)
    (hmem : job ∈ cands) :
    scoreOne simf ue (normalizedSkillSet us) job ∈ score_jobs_node simf us ue cands ↔
      (0 < (scoreOne simf ue (normalizedSkillSet us) job).skill_match_count ∨
        (3 : ℚ)/10 < (scoreOne simf ue (normalizedSkillSet us) job).similarity_score ∨
        (1 : ℚ)/10 < (scoreOne simf ue (normalizedSkillSet us) job).combined_score) := by
  unfold score_jobs_node
  rw [mem_sortByDesc, List.mem_filter]
  constructor
  · rintro ⟨-, hg⟩
    exact includeJob_iff.mp hg
  · intro hg
    exact ⟨List.mem_map_of_mem _ hmem, includeJob_iff.mpr hg⟩

theorem score_jobs_node_inclusion_iff_witness :
    scoreOne (fun _ _ => 0) none (normalizedSkillSet ["python"])
        ⟨"job-1", "Backend Engineer", ["python", "docker"], none⟩ ∈
      score_jobs_node (fun _ _ => 0) ["python"] none
        [⟨"job-1", "Backend Engineer", ["python", "docker"], none⟩] ↔
      (0 < (scoreOne (fun _ _ => 0) none (normalizedSkillSet ["python"])
          ⟨"job-1", "Backend Engineer", ["python", "docker"], none⟩).skill_match_count ∨
        (3 : ℚ)/10 < (scoreOne (fun _ _ => 0) none (normalizedSkillSet ["python"])
          ⟨"job-1", "Backend Engineer", ["python", "docker"], none⟩).similarity_score ∨
        (1 : ℚ)/10 < (scoreOne (fun _ _ => 0) none (normalizedSkillSet ["python"])
          ⟨"job-1", "Backend Engineer", ["python", "docker"], none⟩).combined_score) :=
  score_jobs_node_inclusion_iff (fun _ _ => 0) ["python"] none _ _
    (List.mem_cons_self _ _)

/-- C10.  Everything that passes the scoring node's inclusion gate also
passes the caller-side secondary filter, so the secondary filtered list
is the scored list itself and the guard of the similarity-based
fallback branch (`filtered empty and scored non-empty`) never holds. -/
theorem secondary_filter_never_trims (simf : List ℚ → List ℚ → ℚ)
    (us : List String) (ue : Option (List ℚ)) (cands : List Job) :
    (score_jobs_node simf us ue cands).filter secondaryFilter =
        score_jobs_node simf us ue cands ∧
      ¬((score_jobs_node simf us ue cands).filter secondaryFilter = [] ∧
        score_jobs_node simf us ue cands ≠ []) := by
  refine ⟨filter_secondary_score_jobs simf us ue cands, ?_⟩
  rintro ⟨hempty, hne⟩
  rw [filter_secondary_score_jobs] at hempty
  exact hne hempty

/-- C2 counterexample.  One raw candidate with no skills and no
embedding: it fails the scoring node's inclusion gate, the scored list
is empty, the fallback of `get_recommendations` does not fire (it
requires a non-empty scored list), and the returned recommendation list
is empty even though raw candidates exist. -/
theorem recommendations_empty_despite_candidates :
    get_recommendations_core (fun _ _ => 0) [] none
        [⟨"job-0", "Mystery role", [], none⟩] 10 = [] ∧
      ([⟨"job-0", "Mystery role", [], none⟩] : List Job) ≠ [] := by
  constructor
  · decide
  · decide

/-- C2 amended.  If the scored list (after the inclusion gate) is
non-empty and at least one recommendation is requested, the returned
list is non-empty and bounded by `limit`. -/
theorem recommendations_nonempty_of_scored_nonempty (simf : List ℚ → List ℚ → ℚ)
    (us : List String) (ue : Option (List ℚ)) (cands : List Job) (limit : ℕ)
    (hlim : 1 ≤ limit) (hscored : score_jobs_node simf us ue cands ≠ []) :
    get_recommendations_core simf us ue cands limit ≠ [] ∧
      (get_recommendations_core simf us ue cands limit).length ≤ limit := by
  have hguard : ¬((score_jobs_node simf us ue cands).filter secondaryFilter = [] ∧
      score_jobs_node simf us ue cands ≠ []) := by
    rintro ⟨hempty, -⟩
    rw [filter_secondary_score_jobs] at hempty
    exact hscored hempty
  have hcore : get_recommendations_core simf us ue cands limit =
      (sortByDesc (fun sj => sj.combined_score)
        ((score_jobs_node simf us ue cands).filter secondaryFilter)).take limit := by
    show (sortByDesc (fun sj => sj.combined_score)
        (if (score_jobs_node simf us ue cands).filter secondaryFilter = [] ∧
            score_jobs_node simf us ue cands ≠ [] then
          (sortByDesc (fun sj => sj.similarity_score)
            (score_jobs_node simf us ue cands)).take limit
        else (score_jobs_node simf us ue cands).filter secondaryFilter)).take limit = _
    rw [if_neg hguard]
  rw [hcore, filter_secondary_score_jobs]
  have hlen : (sortByDesc (fun sj => sj.combined_score)
      (score_jobs_node simf us ue cands)).length =
        (score_jobs_node simf us ue cands).length :=
    length_sortByDesc _ _
  constructor
  · intro hnil
    have h0 : 0 < (score_jobs_node simf us ue cands).length :=
      List.length_pos.mpr hscored
    have := congrArg List.length hnil
    rw [List.length_take, hlen] at this
    simp only [List.length_nil] at this
    omega
  · rw [List.length_take]
    omega

theorem recommendations_nonempty_witness :
    (1 ≤ 1 ∧
      score_jobs_node (fun _ _ => 0) ["python"] none
        [⟨"job-1", "Backend Engineer", ["python", "docker"], none⟩] ≠ []) ∧
    (get_recommendations_core (fun _ _ => 0) ["python"] none
        [⟨"job-1", "Backend Engineer", ["python", "docker"], none⟩] 1 ≠ [] ∧
      (get_recommendations_core (fun _ _ => 0) ["python"] none
        [⟨"job-1", "Backend Engineer", ["python", "docker"], none⟩] 1).length ≤ 1) :=
  ⟨⟨by decide, by decide⟩,
    recommendations_nonempty_of_scored_nonempty (fun _ _ => 0) ["python"] none
      [⟨"job-1", "Backend Engineer", ["python", "docker"], none⟩] 1
      (by decide) (by decide)⟩

/-! ## `EmbeddingGenerator.cosine_similarity` (`utils/embeddings.py`)

The method computes `np.dot(vec1, vec2)`, the two Euclidean norms, and
returns `0.0` when either norm is zero, else `dot / (norm1 * norm2)` —
with **no** clamping (the clamp to `[0,1]` happens at the caller in
`score_jobs_node`).  Vectors are modelled as `List ℚ`, the result as a
real number; a float norm is zero exactly when the sum of squares is. -/

/-- Sum of squares of a vector (`np.linalg.norm(v) ** 2`). -/
def sumSq (v : List ℚ) : ℚ := (v.map fun x => x * x).sum

/-- `np.dot` of two 1-d arrays. -/
def dotQ (a b : List ℚ) : ℚ := (List.zipWith (fun x y => x * y) a b).sum

theorem sumSq_nonneg (v : List ℚ) : 0 ≤ sumSq v :=
  List.sum_nonneg fun x hx => by
    rcases List.mem_map.mp hx with ⟨y, -, rfl⟩
    exact mul_self_nonneg y

/-- Cauchy–Schwarz for the list dot product (the norms on the right run
over the full lists, so no length hypothesis is needed). -/
theorem dotQ_sq_le (a b : List ℚ) : dotQ a b ^ 2 ≤ sumSq a * sumSq b := by
  induction a generalizing b with
  | nil =>
    simp only [dotQ, List.zipWith_nil_left, List.sum_nil]
    have := mul_nonneg (sumSq_nonneg []) (sumSq_nonneg b)
    simp only [ne_eq, OfNat.ofNat_ne_zero, not_false_eq_true, zero_pow]
    exact this
  | cons x xs ih =>
    cases b with
    | nil =>
      simp only [dotQ, List.zipWith_nil_right, List.sum_nil]
      simpa using mul_nonneg (sumSq_nonneg (x :: xs)) (sumSq_nonneg [])
    | cons y ys =>
      have hd : dotQ xs ys ^ 2 ≤ sumSq xs * sumSq ys := ih ys
      have hA : 0 ≤ sumSq xs := sumSq_nonneg xs
      have hB : 0 ≤ sumSq ys := sumSq_nonneg ys
      have hgoal : (x * y + dotQ xs ys) ^ 2 ≤
          (x * x + sumSq xs) * (y * y + sumSq ys) := by
        rcases hB.eq_or_lt with hB0 | hBpos
        · have hd0 : dotQ xs ys = 0 := by
            have h1 : dotQ xs ys ^ 2 ≤ 0 := by
              calc dotQ xs ys ^ 2 ≤ sumSq xs * sumSq ys := hd
              _ = 0 := by rw [← hB0, mul_zero]
            have h2 : 0 ≤ dotQ xs ys ^ 2 := sq_nonneg _
            exact pow_eq_zero_iff (by norm_num) |>.mp (le_antisymm h1 h2)
          rw [hd0, ← hB0]
          nlinarith [mul_nonneg hA (mul_self_nonneg y), mul_nonneg hA hB,
            sq_nonneg (x * y)]
        · set A := sumSq xs
          set B := sumSq ys
          set d := dotQ xs ys
          have key : B * ((x * x + A) * (y * y + B) - (x * y + d) ^ 2) =
              (x * B - y * d) ^ 2 + (y * y + B) * (A * B - d ^ 2) := by ring
          have hrhs : 0 ≤ (x * B - y * d) ^ 2 + (y * y + B) * (A * B - d ^ 2) :=
            add_nonneg (sq_nonneg _)
              (mul_nonneg (by nlinarith [mul_self_nonneg y]) (by linarith))
          nlinarith [key, hrhs, hBpos]
      calc dotQ (x :: xs) (y :: ys) ^ 2 = (x * y + dotQ xs ys) ^ 2 := by
            simp [dotQ]
      _ ≤ (x * x + sumSq xs) * (y * y + sumSq ys) := hgoal
      _ = sumSq (x :: xs) * sumSq (y :: ys) := by simp [sumSq]

/-- `EmbeddingGenerator.cosine_similarity`: zero when either norm is
zero, otherwise the raw (unclamped) ratio `dot / (norm1 * norm2)`. -/
noncomputable def cosine_similarity (e1 e2 : List ℚ) : ℝ :=
  if sumSq e1 = 0 ∨ sumSq e2 = 0 then 0
  else (dotQ e1 e2 : ℝ) / (Real.sqrt (sumSq e1 : ℝ) * Real.sqrt (sumSq e2 : ℝ))

/-- C4 counterexample.  `cosine_similarity` does not clamp to `[0,1]`:
on the one-dimensional vectors `[1]` and `[-1]` it returns `-1`. -/
theorem cosine_similarity_returns_negative :
    cosine_similarity [1] [-1] = -1 ∧ cosine_similarity [1] [-1] < 0 := by
  have h1 : sumSq [1] = 1 := by norm_num [sumSq]
  have h2 : sumSq [-1] = 1 := by norm_num [sumSq]
  have h3 : dotQ [1] [-1] = -1 := by norm_num [dotQ]
  have hval : cosine_similarity [1] [-1] = -1 := by
    unfold cosine_similarity
    rw [if_neg (by rw [h1, h2]; norm_num), h1, h2, h3]
    norm_num
  exact ⟨hval, by rw [hval]; norm_num⟩

/-- C4 amended.  `cosine_similarity` always lies in `[-1,1]` (not
`[0,1]`: it is unclamped and can be negative; the caller clamps), and
returns `0` whenever either vector has zero norm. -/
theorem cosine_similarity_range (e1 e2 : List ℚ) :
    (-1 ≤ cosine_similarity e1 e2 ∧ cosine_similarity e1 e2 ≤ 1) ∧
      ((sumSq e1 = 0 ∨ sumSq e2 = 0) → cosine_similarity e1 e2 = 0) := by
  constructor
  · unfold cosine_similarity
    by_cases h : sumSq e1 = 0 ∨ sumSq e2 = 0
    · rw [if_pos h]
      norm_num
    · rw [if_neg h]
      push_neg at h
      have hA : (0 : ℝ) < (sumSq e1 : ℝ) := by
        have := sumSq_nonneg e1
        have hne := h.1
        rcases this.eq_or_lt with h0 | h0
        · exact absurd h0.symm hne
        · exact_mod_cast h0
      have hB : (0 : ℝ) < (sumSq e2 : ℝ) := by
        have := sumSq_nonneg e2
        have hne := h.2
        rcases this.eq_or_lt with h0 | h0
        · exact absurd h0.symm hne
        · exact_mod_cast h0
      have hden : 0 < Real.sqrt (sumSq e1 : ℝ) * Real.sqrt (sumSq e2 : ℝ) :=
        mul_pos (Real.sqrt_pos.mpr hA) (Real.sqrt_pos.mpr hB)
      have hcs : ((dotQ e1 e2 : ℝ)) ^ 2 ≤ (sumSq e1 : ℝ) * (sumSq e2 : ℝ) := by
        exact_mod_cast dotQ_sq_le e1 e2
      have habs : |(dotQ e1 e2 : ℝ)| ≤
          Real.sqrt (sumSq e1 : ℝ) * Real.sqrt (sumSq e2 : ℝ) := by
        rw [← Real.sqrt_mul hA.le]
        rw [← Real.sqrt_sq_eq_abs]
        exact Real.sqrt_le_sqrt hcs
      rw [← abs_le]
      rw [abs_div, abs_of_pos hden]
      exact div_le_one_of_le₀ habs hden.le
  · intro h
    unfold cosine_similarity
    rw [if_pos h]

theorem cosine_similarity_range_witness :
    ((-1 ≤ cosine_similarity [0] [1] ∧ cosine_similarity [0] [1] ≤ 1) ∧
      cosine_similarity [0] [1] = 0) :=
  ⟨(cosine_similarity_range [0] [1]).1,
    (cosine_similarity_range [0] [1]).2 (Or.inl (by norm_num [sumSq]))⟩

/-! ## Skill-gap analysis (`skill_gap_agent.py`)

`analyze_skills_node` builds Python sets from the *raw* skill strings —
no call to `normalize_skill` appears anywhere in this agent — and
`generate_gap_analysis_node` divides by the length of the raw
required-skills list.  Python's set iteration order is unspecified; the
model fixes the first-occurrence order, which the claims (all about
membership, cardinality and the percentage) do not depend on. -/

/-- `analyze_skills_node`: `user_has_skills` and `missing_skills` via
raw-string set intersection and difference. -/
def analyze_skills_node (user_skills job_required_skills : List String) :
    List String × List String :=
  let user_set := user_skills.dedup
  let job_set := job_required_skills.dedup
  (job_set.filter fun s => user_set.contains s,
   job_set.filter fun s => !user_set.contains s)

/-- The `match_percentage` of `generate_gap_analysis_node`:
`len(user_has_skills) / len(job_required_skills) * 100 if
job_required_skills else 0`. -/
def match_percentage (user_has_skills job_required_skills : List String) : ℚ :=
  if job_required_skills ≠ [] then
    (user_has_skills.length : ℚ) / (job_required_skills.length : ℚ) * 100
  else 0

/-- `analyze_skills_node` as claim C6 describes it: both skill lists
sent through `normalize_skill` before the set operations. -/
def analyzeSkillsSpecC6 (user_skills job_required_skills : List String) :
    List String × List String :=
  let user_set := (user_skills.map normalize_skill).dedup
  let job_set := (job_required_skills.map normalize_skill).dedup
  (job_set.filter fun s => user_set.contains s,
   job_set.filter fun s => !user_set.contains s)

/-- C6 counterexample.  The skill-gap agent compares raw strings: a
user listing `"Python"` against a job requiring `"python"` gets an
empty `has` list and `match_percentage = 0`, while the normalized
comparison the claim describes would report a full match. -/
theorem skill_gap_is_case_sensitive :
    analyze_skills_node ["Python"] ["python"] = ([], ["python"]) ∧
      analyzeSkillsSpecC6 ["Python"] ["python"] = (["python"], []) ∧
      match_percentage (analyze_skills_node ["Python"] ["python"]).1 ["python"] = 0 :=
  ⟨by decide, by decide, by decide⟩

/-- C6 amended.  `has`/`missing` are the set intersection/difference of
the *raw* (unnormalized, case-sensitive) skill strings, and
`match_percentage` is `|has| / len(required) * 100`, `0` when the job
lists no skills. -/
theorem skill_gap_raw_sets (us js : List String) :
    (∀ s, s ∈ (analyze_skills_node us js).1 ↔ s ∈ js ∧ s ∈ us) ∧
      (∀ s, s ∈ (analyze_skills_node us js).2 ↔ s ∈ js ∧ s ∉ us) ∧
      (analyze_skills_node us js).1.Nodup ∧
      (analyze_skills_node us js).2.Nodup ∧
      (js = [] → match_percentage (analyze_skills_node us js).1 js = 0) ∧
      (js ≠ [] → match_percentage (analyze_skills_node us js).1 js =
        ((analyze_skills_node us js).1.length : ℚ) / (js.length : ℚ) * 100) := by
  unfold analyze_skills_node
  refine ⟨?_, ?_, ?_, ?_, ?_, ?_⟩
  · intro s
    simp [List.mem_filter, List.mem_dedup, List.contains, List.elem_iff]
  · intro s
    simp [List.mem_filter, List.mem_dedup, List.contains, List.elem_iff]
  · exact (List.nodup_dedup js).filter _
  · exact (List.nodup_dedup js).filter _
  · intro hjs
    rw [match_percentage, if_neg (by simp [hjs])]
  · intro hjs
    rw [match_percentage, if_pos hjs]

theorem skill_gap_raw_sets_witness :
    match_percentage (analyze_skills_node ["a"] ["a", "b"]).1 ["a", "b"] =
      ((analyze_skills_node ["a"] ["a", "b"]).1.length : ℚ) /
        ((["a", "b"] : List String).length : ℚ) * 100 :=
  (skill_gap_raw_sets ["a"] ["a", "b"]).2.2.2.2.2 (by decide)

/-! ## Job ingestion and dedup (`api/admin.py`, `admin_trigger_scrape`)

The storage loop checks
`db.query(JobPosting).filter(JobPosting.source_url == …).first()`
before `db.add`-ing each normalized record, and commits once after the
loop.  The session is built with `autoflush=False`
(`core/database.py`), so that existence check sees only rows already in
the store — pending `db.add`s from the *same* batch are invisible to
it.  The `source_url` column carries a UNIQUE constraint
(`models/job.py`), so `db.commit()` raises `IntegrityError` (modelled
as `none`; the transaction aborts and the store is unchanged) whenever
the committed rows plus the pending inserts repeat a URL. -/

structure NormalizedJob where
  title : String
  source_url : String
deriving DecidableEq

structure StoredJob where
  title : String
  source_url : String
  is_active : Bool
deriving DecidableEq

/-- One invocation of the storage loop of `admin_trigger_scrape` plus
the final commit. -/
def admin_store_jobs (store : List StoredJob) (batch : List NormalizedJob) :
    Option (List StoredJob) :=
  let pending := batch.foldl
    (fun pend rec_ =>
      if store.any fun j => j.source_url == rec_.source_url then pend
      else pend ++ [⟨rec_.title, rec_.source_url, true⟩])
    []
  if ((store ++ pending).map fun j => j.source_url).Nodup then some (store ++ pending)
  else none

/-- C9.  Two normalized records with the same `source_url` in one
scrape run slip past the duplicate check (`autoflush=False`) and make
the commit violate the UNIQUE constraint: the run fails and stores
*nothing*, not one posting.  The same two records ingested in separate
runs do store exactly one posting. -/
theorem same_run_duplicate_aborts :
    admin_store_jobs []
        [⟨"Job A", "https://x/jobs/1"⟩, ⟨"Job B", "https://x/jobs/1"⟩] = none ∧
      (admin_store_jobs [] [⟨"Job A", "https://x/jobs/1"⟩]).bind
          (fun st => admin_store_jobs st [⟨"Job B", "https://x/jobs/1"⟩]) =
        some [⟨"Job A", "https://x/jobs/1", true⟩] :=
  ⟨by decide, by decide⟩

/-- Whatever `admin_store_jobs` does manage to commit has pairwise
distinct `source_url`s — the UNIQUE constraint keeps the store
invariant even though the same-batch duplicate check misses. -/
theorem admin_store_jobs_nodup {store : List StoredJob} {batch : List NormalizedJob}
    {st : List StoredJob} (h : admin_store_jobs store batch = some st) :
    (st.map fun j => j.source_url).Nodup := by
  simp only [admin_store_jobs] at h
  split at h
  · cases h
    assumption
  · cases h

/-! ## Salary extraction (`scrapers/job_normalizer.py`)

`extract_salary` tries three regex patterns in order with `re.search`
and `re.IGNORECASE`; the first match wins.  The patterns are embedded
as a small regex AST with a backtracking matcher that follows Python
`re` semantics: greedy `?` and `*` (try the longer alternative first),
leftmost match, capture groups recording the consumed substring.
`fuel` decreases on every recursive call so the matcher is structural
(kernel-computable); `searchRE` supplies far more fuel than the salary
patterns can consume on the given input, and the fuel-independent
theorem below does not rely on the fuel at all. -/

/-- Regex AST: character class, sequence, greedy option, greedy star,
capture group. -/
inductive RE where
  | eps : RE
  | chr : (Char → Bool) → RE
  | seq : RE → RE → RE
  | opt : RE → RE
  | star : RE → RE
  | grp : Nat → RE → RE

/-- Backtracking matcher in continuation-passing style.  `caps` is the
capture list; a later capture of the same group shadows an earlier one,
as Python's `group(i)` reports the last match.  The star only iterates
when its body consumed input (Python's behaviour on these patterns,
whose star bodies always consume). -/
def matchRE (fuel : Nat) (re : RE) (cs : List Char) (caps : List (Nat × List Char))
    (k : List Char → List (Nat × List Char) → Option (List (Nat × List Char))) :
    Option (List (Nat × List Char)) :=
  match fuel with
  | 0 => none
  | fuel + 1 =>
    match re with
    | .eps => k cs caps
    | .chr p =>
      match cs with
      | [] => none
      | c :: cs1 => if p c then k cs1 caps else none
    | .seq r1 r2 =>
      matchRE fuel r1 cs caps fun cs1 caps1 => matchRE fuel r2 cs1 caps1 k
    | .opt r => (matchRE fuel r cs caps k).orElse fun _ => k cs caps
    | .star r =>
      (matchRE fuel r cs caps fun cs1 caps1 =>
        if cs1.length < cs.length then matchRE fuel (.star r) cs1 caps1 k
        else none).orElse fun _ => k cs caps
    | .grp n r =>
      matchRE fuel r cs caps fun cs1 caps1 =>
        k cs1 ((n, cs.take (cs.length - cs1.length)) :: caps1)

/-- `re.search`: try to match at every start position, leftmost first;
on success return the captures. -/
def searchRE (re : RE) (cs : List Char) : Option (List (Nat × List Char)) :=
  match matchRE (4 * cs.length + 64) re cs [] (fun _ caps => some caps) with
  | some caps => some caps
  | none =>
    match cs with
    | [] => none
    | _ :: cs1 => searchRE re cs1

/-- `\d` -/
def dC : RE := .chr Char.isDigit

/-- A literal character. -/
def lit (a : Char) : RE := .chr fun c => c == a

/-- A case-insensitive literal letter (the patterns are compiled with
`re.IGNORECASE`). -/
def litCI (a : Char) : RE := .chr fun c => c.toLower == a

/-- `\d{1,3}` (greedy: three digits preferred, then two, then one). -/
def digits13 : RE := .seq dC (.opt (.seq dC (.opt dC)))

/-- `(?:,\d{3})` -/
def commaTriple : RE := .seq (lit ',') (.seq dC (.seq dC dC))

/-- `\d{1,3}(?:,\d{3})*(?:k|K)?` — a salary figure. -/
def salaryNum : RE :=
  .seq digits13 (.seq (.star commaTriple) (.opt (.chr fun c => c == 'k' || c == 'K')))

/-- `\s*` -/
def wsStar : RE := .star (.chr Char.isWhitespace)

/-- Pattern 1: `\$(num)\s*-\s*\$(num)` — dollar range. -/
def salaryPattern1 : RE :=
  .seq (lit '$') (.seq (.grp 1 salaryNum) (.seq wsStar (.seq (lit '-')
    (.seq wsStar (.seq (lit '$') (.grp 2 salaryNum))))))

/-- Pattern 2: `\$(num)\s*/\s*yr` — single yearly figure. -/
def salaryPattern2 : RE :=
  .seq (lit '$') (.seq (.grp 1 salaryNum) (.seq wsStar (.seq (lit '/')
    (.seq wsStar (.seq (litCI 'y') (litCI 'r'))))))

/-- Pattern 3: `(num)\s*-\s*(num)\s*USD` — bare range with currency
suffix. -/
def salaryPattern3 : RE :=
  .seq (.grp 1 salaryNum) (.seq wsStar (.seq (lit '-') (.seq wsStar
    (.seq (.grp 2 salaryNum) (.seq wsStar
      (.seq (litCI 'u') (.seq (litCI 's') (litCI 'd'))))))))

/-- `float(value)` on a plain digit string. -/
def digitsToNat (cs : List Char) : Nat :=
  cs.foldl (fun n c => n * 10 + (c.toNat - 48)) 0

/-- `parse_salary_value`: drop `,` and `$`, strip, and multiply by 1000
on a trailing `k`/`K` (`value.lower().endswith("k")`).  The figures the
patterns capture are whole numbers, so `float` is modelled by `ℕ`. -/
def parse_salary_value (cs : List Char) : Nat :=
  let v := pyStrip ((cs.filter fun c => c != ',').filter fun c => c != '$')
  if v.getLast? == some 'k' || v.getLast? == some 'K' then
    digitsToNat v.dropLast * 1000
  else digitsToNat v

/-- `extract_salary`: first matching pattern wins; a two-group match
yields `(min(a,b), max(a,b))`, the single-group `/yr` pattern yields
the figure twice; `none` models `{"min": None, "max": None}`. -/
def extract_salary (text : String) : Option (Nat × Nat) :=
  match searchRE salaryPattern1 text.data with
  | some caps =>
    match caps.lookup 1, caps.lookup 2 with
    | some g1, some g2 =>
      some (Nat.min (parse_salary_value g1) (parse_salary_value g2),
        Nat.max (parse_salary_value g1) (parse_salary_value g2))
    | _, _ => none
  | none =>
    match searchRE salaryPattern2 text.data with
    | some caps =>
      match caps.lookup 1 with
      | some g1 =>
        some (Nat.min (parse_salary_value g1) (parse_salary_value g1),
          Nat.max (parse_salary_value g1) (parse_salary_value g1))
      | none => none
    | none =>
      match searchRE salaryPattern3 text.data with
      | some caps =>
        match caps.lookup 1, caps.lookup 2 with
        | some g1, some g2 =>
          some (Nat.min (parse_salary_value g1) (parse_salary_value g2),
            Nat.max (parse_salary_value g1) (parse_salary_value g2))
        | _, _ => none
      | none => none

/-- C5.  `"$80k - $120k"` parses to `min = 80000, max = 120000`; a
reversed range still comes out ordered; when an earlier pattern
matches, later ones are ignored (`"$5 - $6 and 7 - 8 USD"` is decided
by the dollar-range pattern, `"$90k / yr or 10 - 20 USD"` by the `/yr`
pattern); and whenever extraction succeeds, `min ≤ max`. -/
theorem extract_salary_spec :
    extract_salary "$80k - $120k" = some (80000, 120000) ∧
      extract_salary "$120k - $80k" = some (80000, 120000) ∧
      extract_salary "$5 - $6 and 7 - 8 USD" = some (5, 6) ∧
      extract_salary "$90k / yr or 10 - 20 USD" = some (90000, 90000) ∧
      ∀ (t : String) (mn mx : Nat), extract_salary t = some (mn, mx) → mn ≤ mx := by
  refine ⟨by decide, by decide, by decide, by decide, ?_⟩
  intro t mn mx h
  unfold extract_salary at h
  repeat' split at h
  all_goals
    first
      | exact Option.noConfusion h
      | (simp only [Option.some.injEq, Prod.mk.injEq] at h
         obtain ⟨h1, h2⟩ := h
         rw [← h1, ← h2]
         exact le_trans (Nat.min_le_left _ _) (Nat.le_max_left _ _))

theorem extract_salary_spec_witness : (80000 : Nat) ≤ 120000 :=
  extract_salary_spec.2.2.2.2 "$80k - $120k" 80000 120000 (by decide)

end JobRec
